import Mathlib

/-!
# Verification of the gaselect concurrent genetic-algorithm engine

Shallow embedding of `MultiThreadedPopulation` (MultiThreadedPopulation.cpp)
and the bit-packed `Chromosome` representation (Chromosome.h) of the
gaselect package, together with proofs about the mating algorithm, the
generation barrier, the thread-spawn partitioning and the cancellation
handling.

Doubles are modelled as rationals (`ℚ`): every claim checked here concerns
only comparisons and exact arithmetic on fitness values, never rounding.
External collaborators whose code is outside this core (the evaluator, the
fitness-proportional draw, `Population::checkDuplicated`, `Chromosome`'s
mutation) are modelled as oracle functions consumed by explicit call
counters, exactly as the mate routine consumes them.
-/

namespace Gaselect

attribute [local semireducible] Rat.sub Rat.mul Rat.add Rat.inv
  Rat.ofScientific

/-- A chromosome as the mating algorithm sees it: its genetic content is
identified by `tag` (the exact bit pattern, abstracted), `varCount` is the
number of selected variables (`getVariableCount()`), `fitness` the stored
fitness value (`getFitness()` / `setFitness`). -/
structure Chrom where
  varCount : ℕ
  tag : ℕ
  fitness : ℚ
deriving DecidableEq, Repr

/-- `evaluator.evaluate(c)`: the evaluator is deterministic on the genetic
content, so it is a function of the tag; it stores the fitness in the
chromosome and returns it. -/
def evalChrom (f : ℕ → ℚ) (c : Chrom) : Chrom :=
  { c with fitness := f c.tag }

/-! ## The generation barrier
`MultiThreadedPopulation::waitForAllThreadsToFinishMating`
(MultiThreadedPopulation.cpp lines 562–585). The whole body runs under
`syncMutex`, so arrivals are serialized; one arrival is one atomic step on
the shared state. -/

/-- Shared synchronization state: `numThreadsFinishedMating`,
`allThreadsFinishedMating` and `startMating`. -/
structure BarrierState where
  numFinished : ℕ
  allFinished : Bool
  startMating : Bool
deriving DecidableEq, Repr

/-- One participant's arrival at the barrier, as the source writes it:
`if (++numThreadsFinishedMating > actuallySpawnedThreads)` — the comparison
is against `actuallySpawnedThreads`, the number of spawned *worker*
threads (the invoker is not counted in it). The last arriver resets the
counter, clears `startMating` and sets the release flag it broadcasts on;
every other arriver clears the release flag. -/
def barrierArrive (spawned : ℕ) (s : BarrierState) : BarrierState :=
  if s.numFinished + 1 > spawned then
    { numFinished := 0, allFinished := true, startMating := false }
  else
    { numFinished := s.numFinished + 1, allFinished := false,
      startMating := s.startMating }

/-- The barrier as the claim words it: the reset fires only when the
counter goes *above the total participant count* `spawned + 1`. -/
def barrierArriveClaim (spawned : ℕ) (s : BarrierState) : BarrierState :=
  if s.numFinished + 1 > spawned + 1 then
    { numFinished := 0, allFinished := true, startMating := false }
  else
    { numFinished := s.numFinished + 1, allFinished := false,
      startMating := s.startMating }

/-- `k` serialized arrivals at the barrier starting from state `s`. -/
def barrierRun (spawned : ℕ) (s : BarrierState) : ℕ → BarrierState
  | 0 => s
  | k + 1 => barrierArrive spawned (barrierRun spawned s k)

/-- The wait loop `while (allThreadsFinishedMating == false) pthread_cond_wait`:
a participant can leave the barrier only in a state whose release flag is
set. -/
def barrierReleased (s : BarrierState) : Prop := s.allFinished = true

instance (s : BarrierState) : Decidable (barrierReleased s) := by
  unfold barrierReleased; infer_instance

/-- The state at the start of a round: counter zero, release flag clear,
`startMating` set by the invoker's broadcast. -/
def barrierRound0 : BarrierState :=
  { numFinished := 0, allFinished := false, startMating := true }

/-! ## The mating algorithm
`MultiThreadedPopulation::mate` (MultiThreadedPopulation.cpp lines
135–303).  The collaborators living outside this translation unit
(`drawChromosomeFromCurrentGeneration`, `Chromosome::mateWith`,
`Evaluator::evaluate`, `Chromosome::mutate`, `Population::checkDuplicated`,
`Chromosome::randomlyReset`, `check_interrupt`) are oracles consumed
through explicit call counters.  Pointer identity of the parents drawn
from `currentGeneration` is slot identity: the draw returns the index of a
slot of the current generation. -/

/-- Configuration values `mate` reads from `ctrl`. -/
structure MateCtrl where
  maxMatingTries : ℕ
  badSolutionThreshold : ℚ
  maxDupTries : ℕ
deriving Repr

/-- The oracle bundle: every collaborator outside
MultiThreadedPopulation.cpp, each indexed by its own call counter. -/
structure MateOracles where
  /-- `currentGeneration`: chromosome stored in each slot. -/
  gen : ℕ → Chrom
  /-- results of `drawChromosomeFromCurrentGeneration`, as slot indices. -/
  draw : ℕ → ℕ
  /-- outcomes of `mateWith` calls (children before evaluation), by global
  mate-call counter. -/
  mateRes : ℕ → Chrom × Chrom
  /-- the evaluator: fitness as a function of genetic content. -/
  eval : ℕ → ℚ
  /-- `Chromosome::mutate`: new genetic content and whether bits changed. -/
  mutOracle : ℕ → Chrom → Chrom × Bool
  /-- `Population::checkDuplicated` results for (child1, child2). -/
  dup : ℕ → Bool × Bool
  /-- `Chromosome::randomlyReset` results. -/
  reset : ℕ → Chrom
  /-- `check_interrupt()` results. -/
  interrupt : ℕ → Bool

/-- The `do { tmpChromosome2 = draw(...) } while (tmpChromosome1 ==
tmpChromosome2)` loop (lines 159–161): redraw the second parent while it
is the very same object (slot) as the first.  Fuelled because the source
loop has no bound. -/
def drawSecond (draw : ℕ → ℕ) (t1 : ℕ) : ℕ → ℕ → Option (ℕ × ℕ)
  | 0, _ => none
  | fuel + 1, ctr =>
      let t2 := draw ctr
      if t2 = t1 then drawSecond draw t1 fuel (ctr + 1) else some (t2, ctr + 1)

/-- Lines 158–161: draw the first parent, then the second until it is a
distinct object.  Returns the two slots and the new draw counter. -/
def drawParents (draw : ℕ → ℕ) (fuel ctr : ℕ) : Option (ℕ × ℕ × ℕ) :=
  match drawSecond draw (draw ctr) fuel (ctr + 1) with
  | none => none
  | some (t2, ctr2) => some (draw ctr, t2, ctr2)

/-- Lines 163 and 170–172: the first `mateWith` call followed by the
`while` loop re-mating as long as *both* children have zero variables.
Returns the first outcome that is not doubly empty, plus the new
mate-call counter. -/
def remateWhileBothZero (mateRes : ℕ → Chrom × Chrom) :
    ℕ → ℕ → Option (Chrom × Chrom × ℕ)
  | 0, _ => none
  | fuel + 1, ctr =>
      let c := mateRes ctr
      if c.1.varCount = 0 ∧ c.2.varCount = 0 then
        remateWhileBothZero mateRes fuel (ctr + 1)
      else
        some (c.1, c.2, ctr + 1)

/-- Lines 174–180: if exactly one child has zero variables, it is replaced
by a copy of the other child. -/
def fixZeroChild (c1 c2 : Chrom) : Chrom × Chrom :=
  if c1.varCount = 0 then (c2, c2)
  else if c2.varCount = 0 then (c1, c1)
  else (c1, c2)

/-- Lines 182–187: evaluate both children and swap so the first child is
the one with the larger fitness.  Also returns the evaluation log. -/
def evalAndOrder (f : ℕ → ℚ) (c1 c2 : Chrom) : Chrom × Chrom × List ℕ :=
  let d1 := evalChrom f c1
  let d2 := evalChrom f c2
  if d1.fitness < d2.fitness then (d2, d1, [c1.tag, c2.tag])
  else (d1, d2, [c1.tag, c2.tag])

/-- Lines 203–214 (resp. 217–228): handling of one proposal child.  A
proposal with zero variables is skipped entirely (not evaluated, not
adopted).  Otherwise it is evaluated; if its fitness is strictly better
than the current second child's it is adopted, and if it is also strictly
better than the current first child's it is promoted to first (the old
first child becoming second).  Returns the updated pair and the
evaluation log of this step. -/
def adoptProposal (f : ℕ → ℚ) (p c1 c2 : Chrom) : Chrom × Chrom × List ℕ :=
  if 0 < p.varCount then
    let pf := f p.tag
    if pf > c2.fitness then
      if pf > c1.fitness then ({ p with fitness := pf }, c1, [p.tag])
      else (c1, { p with fitness := pf }, [p.tag])
    else (c1, c2, [p.tag])
  else (c1, c2, [])

/-- One iteration body of the improvement-retry loop (lines 197–228):
proposal 1 then proposal 2. -/
def retryStep (f : ℕ → ℚ) (p1 p2 c1 c2 : Chrom) : Chrom × Chrom × List ℕ :=
  let r1 := adoptProposal f p1 c1 c2
  let r2 := adoptProposal f p2 r1.1 r1.2.1
  (r2.1, r2.2.1, r1.2.2 ++ r2.2.2)

/-- The improvement-retry loop (lines 195–234):
`while (child1->getFitness() < minParentFitness && (++matingTries <
maxMatingTries))` re-mate the same parents into the two scratch proposal
chromosomes and run `retryStep`.  Returns the final children, the new
mate-call counter and the evaluation log.  The first `ℕ` argument is
structural fuel, instantiated with `maxTries` at the call site: every
iteration increments `tries` and requires `tries + 1 < maxTries`, so the
fuel can never run out before the guard fails and the translation is
exact. -/
def retryLoop (f : ℕ → ℚ) (mateRes : ℕ → Chrom × Chrom) (minP : ℚ)
    (maxTries : ℕ) : ℕ → ℕ → ℕ → Chrom → Chrom →
    Chrom × Chrom × ℕ × List ℕ
  | 0, _, mateCtr, c1, c2 => (c1, c2, mateCtr, [])
  | fuel + 1, tries, mateCtr, c1, c2 =>
      if c1.fitness < minP ∧ tries + 1 < maxTries then
        let p := mateRes mateCtr
        let r := retryStep f p.1 p.2 c1 c2
        let rr := retryLoop f mateRes minP maxTries fuel (tries + 1)
            (mateCtr + 1) r.1 r.2.1
        (rr.1, rr.2.1, rr.2.2.1, r.2.2 ++ rr.2.2.2)
      else
        (c1, c2, mateCtr, [])

/-- The abandonment test exactly as line 236 writes it:
`child1->getFitness() < minParentFitness - badSolutionThreshold *
fabs(minParentFitness)`. -/
def badSolution (thr minP c1fit : ℚ) : Bool :=
  decide (c1fit < minP - thr * |minP|)

/-- The abandonment test as the claim words it: fitness worse than
`minParentFitness * (1 - badSolutionThreshold)`. -/
def badSolutionClaim (thr minP c1fit : ℚ) : Bool :=
  decide (c1fit < minP * (1 - thr))

/-- Everything one attempt at a destination pair produces (lines
158–242): the abandonment verdict, the two children after the retry
phase, the slots of the two drawn parents, the advanced draw and
mate-call counters, the evaluation log, the parent pair of every
`mateWith` call made, and `minParentFitness`. -/
structure AttemptOut where
  abandoned : Bool
  c1 : Chrom
  c2 : Chrom
  parent1 : ℕ
  parent2 : ℕ
  drawCtr : ℕ
  mateCtr : ℕ
  evals : List ℕ
  mates : List (ℕ × ℕ)
  minP : ℚ
deriving DecidableEq, Repr

/-- Lines 158–242 of `mate`: draw two distinct parents, mate them (re-mate
while both children are empty), repair a single empty child, evaluate and
order, compute `minParentFitness` as the *larger* of the two parents'
fitness values (line 165), run the improvement retries, and test for
abandonment. -/
def attemptCore (O : MateOracles) (C : MateCtrl)
    (fuelD fuelZ drawCtr mateCtr : ℕ) : Option AttemptOut :=
  match drawParents O.draw fuelD drawCtr with
  | none => none
  | some (t1, t2, dctr) =>
      match remateWhileBothZero O.mateRes fuelZ mateCtr with
      | none => none
      | some (r1, r2, mctr1) =>
          let z := fixZeroChild r1 r2
          let minP := max (O.gen t1).fitness (O.gen t2).fitness
          let e := evalAndOrder O.eval z.1 z.2
          let r := retryLoop O.eval O.mateRes minP C.maxMatingTries
              C.maxMatingTries 0 mctr1 e.1 e.2.1
          some { abandoned := badSolution C.badSolutionThreshold minP
                   r.1.fitness,
                 c1 := r.1, c2 := r.2.1, parent1 := t1, parent2 := t2,
                 drawCtr := dctr, mateCtr := r.2.2.1,
                 evals := e.2.2 ++ r.2.2.2,
                 mates := List.replicate (r.2.2.1 - mateCtr) (t1, t2),
                 minP := minP }

/-- Oracle call counters carried through the outer mating loop. -/
structure MateCounters where
  drawCtr : ℕ
  mateCtr : ℕ
  mutCtr : ℕ
  dupCtr : ℕ
  resetCtr : ℕ
  intCtr : ℕ
deriving DecidableEq, Repr

/-- Observation logs of one `mate` call: evaluated tags, parents of every
`mateWith` call, and the number of executed `check_interrupt()` checks. -/
structure MateLogs where
  evals : List ℕ
  mates : List (ℕ × ℕ)
  checks : ℕ
deriving DecidableEq, Repr

/-- State of the outer loop of `mate` (lines 157–299), relative to this
thread's range: `a` is the index `child1It` writes, `bbase` the base index
of the reverse iterator `child2It` (which writes `bbase - 1`), `slots` the
contents of the range. -/
structure MateState where
  a : ℕ
  bbase : ℕ
  slots : List Chrom
  child1Tries : ℕ
  child2Tries : ℕ
  ctrs : MateCounters
  logs : MateLogs
deriving DecidableEq, Repr

/-- The loop guard of line 157:
`child1It != child2It.base() && child1It != (child2It + 1).base()`. -/
def mateLoopCond (s : MateState) : Bool :=
  decide (s.a ≠ s.bbase ∧ s.a ≠ s.bbase - 1)

/-- Duplicate-elimination block for one child (lines 253–269 resp.
271–287).  Arguments: the duplicate verdict for this child, its tries
counter, the mutated child and whether mutation changed it, the reset and
evaluation oracles with the reset counter.  Returns
(advance?, new tries counter, final chromosome, new reset counter,
evaluation log). -/
def dupBlock (f : ℕ → ℚ) (reset : ℕ → Chrom) (maxDupTries : ℕ)
    (dupd : Bool) (tries : ℕ) (m : Chrom) (mutated : Bool)
    (resetCtr : ℕ) : Bool × ℕ × Chrom × ℕ × List ℕ :=
  let tries1 := if dupd then tries + 1 else tries
  if dupd = false ∨ tries1 > maxDupTries then
    let rs :=
      if tries1 > maxDupTries then
        let rc := reset resetCtr
        (({ varCount := rc.varCount, tag := rc.tag,
            fitness := m.fitness } : Chrom), true, resetCtr + 1)
      else (m, mutated, resetCtr)
    let ev := if rs.2.1 then (evalChrom f rs.1, [rs.1.tag])
              else (rs.1, ([] : List ℕ))
    (true, 0, ev.1, rs.2.2, ev.2)
  else
    (false, tries1, m, resetCtr, [])

/-- One full iteration of the outer loop of `mate` (lines 158–298): the
pair attempt, then — unless the pair was abandoned (`continue`, line 241)
— mutation of both children, the duplicate check, the conditional index
advances, and (on the invoking thread only) the user-interrupt check.
The returned `Bool` is whether `InterruptException` was thrown. -/
def outerIter (O : MateOracles) (C : MateCtrl) (fuelD fuelZ : ℕ)
    (checkFlag : Bool) (s : MateState) : Option (MateState × Bool) :=
  match attemptCore O C fuelD fuelZ s.ctrs.drawCtr s.ctrs.mateCtr with
  | none => none
  | some out =>
      let ctrs1 := { s.ctrs with drawCtr := out.drawCtr,
                                 mateCtr := out.mateCtr }
      let logs1 := { s.logs with evals := s.logs.evals ++ out.evals,
                                 mates := s.logs.mates ++ out.mates }
      let slots1 := (s.slots.set s.a out.c1).set (s.bbase - 1) out.c2
      if out.abandoned then
        some ({ s with slots := slots1, ctrs := ctrs1, logs := logs1 },
          false)
      else
        let m1r := O.mutOracle ctrs1.mutCtr out.c1
        let m1 : Chrom := { varCount := m1r.1.varCount, tag := m1r.1.tag,
                            fitness := out.c1.fitness }
        let m2r := O.mutOracle (ctrs1.mutCtr + 1) out.c2
        let m2 : Chrom := { varCount := m2r.1.varCount, tag := m2r.1.tag,
                            fitness := out.c2.fitness }
        let ctrs2 := { ctrs1 with mutCtr := ctrs1.mutCtr + 2 }
        let dup := O.dup ctrs2.dupCtr
        let ctrs3 := { ctrs2 with dupCtr := ctrs2.dupCtr + 1 }
        let b1 := dupBlock O.eval O.reset C.maxDupTries dup.1
            s.child1Tries m1 m1r.2 ctrs3.resetCtr
        let b2 := dupBlock O.eval O.reset C.maxDupTries dup.2
            s.child2Tries m2 m2r.2 b1.2.2.2.1
        let a' := if b1.1 then s.a + 1 else s.a
        let bb' := if b2.1 then s.bbase - 1 else s.bbase
        let slots2 := (slots1.set s.a b1.2.2.1).set (s.bbase - 1) b2.2.2.1
        let ctrs4 := { ctrs3 with resetCtr := b2.2.2.2.1 }
        let chk : ℕ × ℕ × Bool :=
          if checkFlag then (1, ctrs4.intCtr + 1, O.interrupt ctrs4.intCtr)
          else (0, ctrs4.intCtr, false)
        some ({ a := a', bbase := bb', slots := slots2,
                child1Tries := b1.2.1, child2Tries := b2.2.1,
                ctrs := { ctrs4 with intCtr := chk.2.1 },
                logs := { evals := logs1.evals ++ b1.2.2.2.2 ++ b2.2.2.2.2,
                          mates := logs1.mates,
                          checks := s.logs.checks + chk.1 } },
              chk.2.2)

/-- The outer loop of `mate` (line 157), fuelled: iterate `outerIter`
while the guard holds; stop immediately when `InterruptException` is
thrown. -/
def mateLoop (O : MateOracles) (C : MateCtrl) (fuelD fuelZ : ℕ)
    (checkFlag : Bool) : ℕ → MateState → Option (MateState × Bool)
  | 0, _ => none
  | fuel + 1, s =>
      if mateLoopCond s then
        match outerIter O C fuelD fuelZ checkFlag s with
        | none => none
        | some (s', thrown) =>
            if thrown then some (s', true)
            else mateLoop O C fuelD fuelZ checkFlag fuel s'
      else some (s, false)

/-- Entry state of `mate` for a range of `numChildren` slots (lines
142–155): `child1It` at the start of the range, `child2It` the reverse
iterator over its end, tries counters zero, empty logs. -/
def mateInit (numChildren : ℕ) (ctrs : MateCounters) (slots : List Chrom) :
    MateState :=
  { a := 0, bbase := numChildren, slots := slots,
    child1Tries := 0, child2Tries := 0, ctrs := ctrs,
    logs := { evals := [], mates := [], checks := 0 } }

/-- `MultiThreadedPopulation::mate` over one thread's range. -/
def mateRun (O : MateOracles) (C : MateCtrl) (fuelD fuelZ : ℕ)
    (checkFlag : Bool) (numChildren fuel : ℕ) (ctrs : MateCounters)
    (slots : List Chrom) : Option (MateState × Bool) :=
  mateLoop O C fuelD fuelZ checkFlag fuel (mateInit numChildren ctrs slots)

/-! ## Thread setup in `run`
`MultiThreadedPopulation::run` lines 315–319 and 381–411: the spawn loop
assigns each worker its share of children and a range offset; on
`pthread_create` failure the worker's share is folded into the invoking
thread's share and the offset is not advanced.  A failure pattern is the
list of per-worker creation outcomes (`true` = spawned), in the iteration
order of the loop. -/

/-- The spawn loop: arguments are the remaining extra children
(`remainingChildren`), the running offset and the invoking thread's
running share (`numChildrenMainThread`).  Returns the (offset, share)
ranges of the successfully spawned workers, the final offset and the
invoking thread's final share. -/
def spawnLoop (perThread : ℕ) : List Bool → ℕ → ℕ → ℕ →
    List (ℕ × ℕ) × ℕ × ℕ
  | [], _, off, mainC => ([], off, mainC)
  | ok :: rest, rem, off, mainC =>
      let nc := if 0 < rem then perThread + 1 else perThread
      if ok then
        let r := spawnLoop perThread rest (rem - 1) (off + nc) mainC
        ((off, nc) :: r.1, r.2)
      else
        spawnLoop perThread rest (rem - 1) off (mainC + nc)

/-- The complete per-generation write partition of `nextGeneration`: the
ranges of the spawned workers followed by the invoking thread's range,
which starts at the final offset (the value passed to `this->mate` at
line 450). -/
def spawnPlan (pop T : ℕ) (pattern : List Bool) : List (ℕ × ℕ) :=
  let r := spawnLoop (pop / T) pattern (pop % T) 0 (pop / T)
  r.1 ++ [(r.2.1, r.2.2)]

/-- Sum of the shares handed out by the loop, spawned or not. -/
def totalShares (perThread : ℕ) : List Bool → ℕ → ℕ
  | [], _ => 0
  | _ :: rest, rem =>
      (if 0 < rem then perThread + 1 else perThread) +
        totalShares perThread rest (rem - 1)

/-- Sum of the shares of the workers whose creation failed. -/
def failedShares (perThread : ℕ) : List Bool → ℕ → ℕ
  | [], _ => 0
  | ok :: rest, rem =>
      (if ok then 0 else if 0 < rem then perThread + 1 else perThread) +
        failedShares perThread rest (rem - 1)

/-- Lines 407–408: the warning is printed exactly when fewer threads were
spawned than requested. -/
def spawnWarning (pattern : List Bool) : Bool :=
  decide (pattern.count true < pattern.length)

/-- `(offset, count)` ranges starting exactly at `off` and following one
another without gap. -/
def consecutiveFrom : ℕ → List (ℕ × ℕ) → Prop
  | _, [] => True
  | off, r :: rs => r.1 = off ∧ consecutiveFrom (off + r.2) rs

/-- Total number of slots of a list of ranges. -/
def sizesSum (rs : List (ℕ × ℕ)) : ℕ := (rs.map Prod.snd).sum

/-- Membership of a slot index in an `(offset, count)` range. -/
def inRange (r : ℕ × ℕ) (x : ℕ) : Prop := r.1 ≤ x ∧ x < r.1 + r.2

/-- A slot index is covered by some range of the list. -/
def covers (rs : List (ℕ × ℕ)) (x : ℕ) : Prop := ∃ r ∈ rs, inRange r x

/-- Two ranges share no slot index. -/
def rangesDisjoint (r s : ℕ × ℕ) : Prop := ∀ x, ¬(inRange r x ∧ inRange s x)

/-! ## The run loop and cancellation
`MultiThreadedPopulation::run` lines 419–517: the generation loop with the
`InterruptException` catch, followed unconditionally by the terminate
broadcast, the join loop and — only after all of that — the re-throw of
the interruption. -/

/-- Externally visible events of `run` after thread setup. -/
inductive RunEv where
  | broadcastStart
  | mateMain (gensLeft : ℕ)
  | barrierWait
  | broadcastTerminate
  | joinThread (i : ℕ)
deriving DecidableEq, Repr

/-- The generation loop (lines 419–473), indexed by the loop counter `i`
(generations still to run): broadcast start, run the invoking thread's
mating share (which may raise `InterruptException`, caught and recorded in
`interrupted`), wait on the barrier, and continue while `i > 0 &&
!interrupted`.  `intAt i` tells whether the invoker's mating share raises
the interruption in the iteration with counter `i`. -/
def runGens (intAt : ℕ → Bool) : ℕ → List RunEv × Bool
  | 0 => ([], false)
  | n + 1 =>
      let tr := [RunEv.broadcastStart, RunEv.mateMain (n + 1),
                 RunEv.barrierWait]
      if intAt (n + 1) then (tr, true)
      else
        let r := runGens intAt n
        (tr ++ r.1, r.2)

/-- The join loop (lines 490–498): `pthread_join` on every worker slot,
spawned or not, in the order `i = workers - 1` down to `0`. -/
def joinSeq : ℕ → List RunEv
  | 0 => []
  | n + 1 => RunEv.joinThread n :: joinSeq n

/-- `run` after thread setup: the generation loop, then always the
terminate broadcast (lines 480–487) and the joins; the second component
is the `interrupted` flag, re-thrown as `InterruptException` (line 516)
only after the whole trace has happened. -/
def runModel (intAt : ℕ → Bool) (numGens workers : ℕ) :
    List RunEv × Bool :=
  let g := runGens intAt numGens
  (g.1 ++ RunEv.broadcastTerminate :: joinSeq workers, g.2)

/-! ## The bit-packed chromosome representation
Chromosome.h lines 74–79.  The header states: "If not all bits are used,
the k least significant bits of the 1st(!) part are not used
(k = this->unusedBits)". -/

/-- Modelled from the spec: the packing of a selection vector into the
first word of `chromosomeParts` — `Chromosome::initChromosomeParts`'s
output layout lives in Chromosome.cpp which is not part of the provided
sources.  Per the header comment (Chromosome.h line 78) the `k` least
significant bits of the first part are unused, so variable `i` of the
first word occupies bit `k + i`; the selection vector lists which of
those variable bits are set.  The bit order of the variables inside the
used region is irrelevant to every claim checked here. -/
def firstPart (k : ℕ) : List Bool → ℕ
  | [] => 0
  | b :: rest => (if b then 2 ^ k else 0) + firstPart (k + 1) rest

/-- Modelled from the spec: `Chromosome::mateWith`'s per-bit crossover
(spec §4.2, Chromosome.cpp not in the provided sources) — for each bit
position the child inherits from one parent or the other according to a
random mask. -/
def crossSel (mask p q : List Bool) : List Bool :=
  List.zipWith (fun m (ab : Bool × Bool) => if m then ab.1 else ab.2) mask
    (p.zip q)

/-- The unused region as the source defines it (Chromosome.h line 78):
the `k` least significant bits of the first part, all zero. -/
def lowBitsUnused (k part0 : ℕ) : Prop := 2 ^ k ∣ part0

/-- The unused region as the claim words it: the high-order `k` bits of
the first `w`-bit word, all zero — i.e. `part0 < 2 ^ (w - k)`. -/
def highBitsUnused (w k part0 : ℕ) : Prop := part0 < 2 ^ (w - k)

instance (k part0 : ℕ) : Decidable (lowBitsUnused k part0) := by
  unfold lowBitsUnused; infer_instance

instance (w k part0 : ℕ) : Decidable (highBitsUnused w k part0) := by
  unfold highBitsUnused; infer_instance

/-! ## Concrete scenarios used by counterexamples and witnesses -/

/-- Oracles for the abandonment-threshold counterexample: both parents
have negative fitness (−10 and −12), every child evaluates to −8. -/
def cex1O : MateOracles :=
  { gen := fun i => if i = 0 then ⟨3, 0, -10⟩ else ⟨3, 1, -12⟩,
    draw := fun k => k % 2,
    mateRes := fun _ => (⟨2, 10, 0⟩, ⟨2, 11, 0⟩),
    eval := fun _ => -8,
    mutOracle := fun _ c => (c, false),
    dup := fun _ => (false, false),
    reset := fun _ => ⟨1, 0, 0⟩,
    interrupt := fun _ => false }

/-- Control values for the abandonment-threshold counterexample. -/
def cex1C : MateCtrl :=
  { maxMatingTries := 5, badSolutionThreshold := 1/2, maxDupTries := 3 }

/-- Oracles for the abandonment witness: parents with fitness 10 and 8,
children evaluating to 4.9 — the spec's concrete scenario. -/
def wit1O : MateOracles :=
  { gen := fun i => if i = 0 then ⟨3, 0, 10⟩ else ⟨3, 1, 8⟩,
    draw := fun k => k % 2,
    mateRes := fun _ => (⟨2, 10, 0⟩, ⟨2, 11, 0⟩),
    eval := fun _ => 49/10,
    mutOracle := fun _ c => (c, false),
    dup := fun _ => (false, false),
    reset := fun _ => ⟨1, 0, 0⟩,
    interrupt := fun _ => false }

/-- Control values for the abandonment witness. -/
def wit1C : MateCtrl :=
  { maxMatingTries := 2, badSolutionThreshold := 1/2, maxDupTries := 3 }

/-- Oracles for the interrupt-count counterexample: a benign generation
(no zero-variable children, fit children, no duplicates, no abandonment):
parents' fitness 1, children's fitness 5. -/
def cex4O : MateOracles :=
  { gen := fun i => ⟨1, i, 1⟩,
    draw := fun k => k % 2,
    mateRes := fun _ => (⟨1, 10, 0⟩, ⟨1, 11, 0⟩),
    eval := fun _ => 5,
    mutOracle := fun _ c => (c, false),
    dup := fun _ => (false, false),
    reset := fun _ => ⟨1, 0, 0⟩,
    interrupt := fun _ => false }

/-- Control values for the interrupt-count counterexample. -/
def cex4C : MateCtrl :=
  { maxMatingTries := 5, badSolutionThreshold := 1/2, maxDupTries := 3 }

/-- Oracles exhibiting the identity-only distinct-parents rule: every
slot of the current generation holds the *same* chromosome value, and the
draw stream returns slot 0 then slot 1. -/
def cex10O : MateOracles :=
  { gen := fun _ => ⟨1, 7, 3⟩,
    draw := fun k => k % 2,
    mateRes := fun _ => (⟨1, 10, 0⟩, ⟨1, 11, 0⟩),
    eval := fun _ => 5,
    mutOracle := fun _ c => (c, false),
    dup := fun _ => (false, false),
    reset := fun _ => ⟨1, 0, 0⟩,
    interrupt := fun _ => false }

/-- Control values for the identity-only selection scenario. -/
def cex10C : MateCtrl :=
  { maxMatingTries := 5, badSolutionThreshold := 1/2, maxDupTries := 3 }

/-- A constant evaluator used by small witness scenarios. -/
def wit5f : ℕ → ℚ := fun _ => 5

/-- A constant `mateWith` outcome used by small witness scenarios: both
proposals have one variable. -/
def wit5m : ℕ → Chrom × Chrom := fun _ => (⟨1, 0, 0⟩, ⟨1, 1, 0⟩)

/-- A `mateWith`-outcome stream whose first call yields two zero-variable
children and whose second call succeeds, for the re-mating witness. -/
def wit7m : ℕ → Chrom × Chrom :=
  fun k => if k = 0 then (⟨0, 0, 0⟩, ⟨0, 1, 0⟩) else (⟨1, 2, 0⟩, ⟨1, 3, 0⟩)

/-- Benign oracles for the same-parents witness of the re-mating rule. -/
def wit7O : MateOracles :=
  { gen := fun i => ⟨1, i, 1⟩,
    draw := fun k => k % 2,
    mateRes := fun _ => (⟨1, 10, 0⟩, ⟨1, 11, 0⟩),
    eval := fun _ => 5,
    mutOracle := fun _ c => (c, false),
    dup := fun _ => (false, false),
    reset := fun _ => ⟨1, 0, 0⟩,
    interrupt := fun _ => false }

/-- Control values for the same-parents witness. -/
def wit7C : MateCtrl :=
  { maxMatingTries := 5, badSolutionThreshold := 1/2, maxDupTries := 3 }

/-- Fresh counters (all oracle call counters at zero). -/
def ctrs0 : MateCounters :=
  { drawCtr := 0, mateCtr := 0, mutCtr := 0, dupCtr := 0, resetCtr := 0,
    intCtr := 0 }

/-- While at most `spawned` participants (fewer than all of them, the
invoker included) have arrived, the counter just counts and the release
flag stays clear. -/
lemma barrierRun_le (spawned : ℕ) :
    ∀ k, k ≤ spawned →
      barrierRun spawned barrierRound0 k =
        { numFinished := k, allFinished := false, startMating := true } := by
  intro k
  induction k with
  | zero => intro _; rfl
  | succ n ih =>
      intro hk
      have hn : n ≤ spawned := Nat.le_of_succ_le hk
      rw [barrierRun, ih hn]
      unfold barrierArrive
      have : ¬ (n + 1 > spawned) := by omega
      simp [this]

/-- The `spawned + 1`-st arrival (the one that makes the counter exceed the
worker count, i.e. reach the participant count) resets the counter, clears
`startMating` and releases everyone. -/
lemma barrierRun_last (spawned : ℕ) :
    barrierRun spawned barrierRound0 (spawned + 1) =
      { numFinished := 0, allFinished := true, startMating := false } := by
  rw [barrierRun, barrierRun_le spawned spawned le_rfl]
  unfold barrierArrive
  simp

/-- C2, counterexample.  With one spawned worker the participants are two
(the worker and the invoker).  In the source semantics the second arrival
pushes the counter to 2 > 1 = `actuallySpawnedThreads` and releases the
barrier; under the claim's rule — reset only when the counter goes above
the *total participant count* 2 — the same two arrivals leave the counter
at 2 and the barrier never released. -/
theorem claim2_counterexample :
    barrierArrive 1 (barrierArrive 1 barrierRound0) =
      { numFinished := 0, allFinished := true, startMating := false } ∧
    barrierArriveClaim 1 (barrierArriveClaim 1 barrierRound0) =
      { numFinished := 2, allFinished := false, startMating := true } := by
  decide

/-- C2, amended: every participant increments the finished counter under
the mutex; the participant whose increment pushes the counter above the
number of *spawned worker threads* (equivalently: makes it reach the total
participant count `spawned + 1`) resets the counter to zero, clears the
start-mating flag and sets the release flag it broadcasts on; while any
participant is still missing the release flag stays clear, so every
earlier arriver stays blocked in the wait loop — no participant enters
generation g+1 before all `spawned + 1` participants have finished
generation g. -/
theorem claim2_amended (spawned k : ℕ) (hk : k ≤ spawned) :
    barrierRun spawned barrierRound0 k =
      { numFinished := k, allFinished := false, startMating := true } ∧
    ¬ barrierReleased (barrierRun spawned barrierRound0 k) ∧
    barrierRun spawned barrierRound0 (spawned + 1) =
      { numFinished := 0, allFinished := true, startMating := false } ∧
    barrierReleased (barrierRun spawned barrierRound0 (spawned + 1)) := by
  refine ⟨barrierRun_le spawned k hk, ?_, barrierRun_last spawned, ?_⟩
  · rw [barrierRun_le spawned k hk]
    simp [barrierReleased]
  · rw [barrierRun_last spawned]
    simp [barrierReleased]

/-- Witness for the amended C2 at `spawned = 2`, `k = 1`. -/
theorem claim2_witness :
    barrierRun 2 barrierRound0 1 =
      { numFinished := 1, allFinished := false, startMating := true } ∧
    ¬ barrierReleased (barrierRun 2 barrierRound0 1) ∧
    barrierRun 2 barrierRound0 3 =
      { numFinished := 0, allFinished := true, startMating := false } ∧
    barrierReleased (barrierRun 2 barrierRound0 3) :=
  claim2_amended 2 1 (by decide)

/-! ## Parent drawing -/

/-- The redraw loop consumes at least one draw. -/
lemma drawSecond_ctr (draw : ℕ → ℕ) (t1 : ℕ) :
    ∀ fuel ctr t2 ctr', drawSecond draw t1 fuel ctr = some (t2, ctr') →
      ctr + 1 ≤ ctr' := by
  intro fuel
  induction fuel with
  | zero => intro ctr t2 ctr' h; simp [drawSecond] at h
  | succ n ih =>
      intro ctr t2 ctr' h
      unfold drawSecond at h
      dsimp only at h
      split at h
      · have := ih (ctr + 1) t2 ctr' h
        omega
      · simp only [Option.some.injEq, Prod.mk.injEq] at h
        omega

/-- The result of the redraw loop is never the first parent's slot. -/
lemma drawSecond_ne (draw : ℕ → ℕ) (t1 : ℕ) :
    ∀ fuel ctr t2 ctr', drawSecond draw t1 fuel ctr = some (t2, ctr') →
      t2 ≠ t1 := by
  intro fuel
  induction fuel with
  | zero => intro ctr t2 ctr' h; simp [drawSecond] at h
  | succ n ih =>
      intro ctr t2 ctr' h
      unfold drawSecond at h
      dsimp only at h
      split at h
      · exact ih (ctr + 1) t2 ctr' h
      · rename_i hne
        simp only [Option.some.injEq, Prod.mk.injEq] at h
        omega

/-- Parent selection consumes at least two draws. -/
lemma drawParents_ctr (draw : ℕ → ℕ) (fuel ctr t1 t2 ctr')
    (h : drawParents draw fuel ctr = some (t1, t2, ctr')) :
    ctr + 2 ≤ ctr' := by
  unfold drawParents at h
  cases hs : drawSecond draw (draw ctr) fuel (ctr + 1) with
  | none => rw [hs] at h; exact absurd h (by simp)
  | some p =>
      rw [hs] at h
      simp only [Option.some.injEq, Prod.mk.injEq] at h
      have := drawSecond_ctr draw (draw ctr) fuel (ctr + 1) p.1 p.2 hs
      omega

/-! ## The abandonment rule (claim C1) -/

/-- For a nonnegative `minParentFitness` the source's threshold
`minP - thr * |minP|` and the claim's `minP * (1 - thr)` agree. -/
lemma badSolution_eq_claim (thr minP x : ℚ) (h0 : 0 ≤ minP) :
    badSolution thr minP x = badSolutionClaim thr minP x := by
  unfold badSolution badSolutionClaim
  rw [show minP - thr * |minP| = minP * (1 - thr) by
    rw [abs_of_nonneg h0]; ring]

/-- C1, counterexample.  The claim's threshold `minParentFitness * (1 -
badSolutionThreshold)` disagrees with the source (line 236: `minP -
badSolutionThreshold * fabs(minP)`) as soon as `minParentFitness` is
negative: with parents of fitness −10 and −12, threshold 1/2 and a final
child1 fitness of −8, the source does *not* abandon the pair
(−8 ≥ −10 − 5 = −15), while the claim's formula demands abandonment under
either reading of `minParentFitness` (−8 < −10·(1/2) = −5 and
−8 < −12·(1/2) = −6). -/
theorem claim1_counterexample :
    (attemptCore cex1O cex1C 2 2 0 0).map
        (fun o => (o.abandoned, o.minP, o.c1.fitness)) =
      some (false, -10, -8) ∧
    badSolutionClaim (1/2) (-10) (-8) = true ∧
    badSolutionClaim (1/2) (-12) (-8) = true := by
  decide

/-- C1 (amended): after the improvement retries the pair is abandoned
(the `continue` of line 241, restarting with freshly drawn parents and
without advancing the slot indices or the tries counters, and skipping the
interrupt check) exactly when child1's fitness is below
`minParentFitness − badSolutionThreshold · |minParentFitness|`, where
`minParentFitness` is the fitness of the *better*-performing (larger
fitness) of the two parents.  For nonnegative `minParentFitness` this
threshold coincides with the claim's `minParentFitness · (1 −
badSolutionThreshold)`, and the spec's concrete scenario holds: with
threshold 1/2 and `minParentFitness = 10`, a child1 fitness of 4.9
triggers abandonment and 5.1 does not. -/
theorem claim1_amended (O : MateOracles) (C : MateCtrl)
    (fuelD fuelZ : ℕ) (flag : Bool) (s : MateState) (out : AttemptOut)
    (h : attemptCore O C fuelD fuelZ s.ctrs.drawCtr s.ctrs.mateCtr =
      some out)
    (hab : out.abandoned = true) :
    out.c1.fitness < out.minP - C.badSolutionThreshold * |out.minP| ∧
    out.minP = max (O.gen out.parent1).fitness (O.gen out.parent2).fitness ∧
    (∀ x : ℚ, 0 ≤ out.minP →
      badSolution C.badSolutionThreshold out.minP x =
        badSolutionClaim C.badSolutionThreshold out.minP x) ∧
    (∃ s', outerIter O C fuelD fuelZ flag s = some (s', false) ∧
      s'.a = s.a ∧ s'.bbase = s.bbase ∧
      s'.child1Tries = s.child1Tries ∧ s'.child2Tries = s.child2Tries ∧
      s'.logs.checks = s.logs.checks ∧
      s.ctrs.drawCtr + 2 ≤ s'.ctrs.drawCtr) ∧
    badSolution (1/2) 10 (49/10) = true ∧
    badSolution (1/2) 10 (51/10) = false := by
  have hiter : outerIter O C fuelD fuelZ flag s =
      some ({ s with
        slots := (s.slots.set s.a out.c1).set (s.bbase - 1) out.c2,
        ctrs := { s.ctrs with drawCtr := out.drawCtr,
                              mateCtr := out.mateCtr },
        logs := { s.logs with evals := s.logs.evals ++ out.evals,
                              mates := s.logs.mates ++ out.mates } },
        false) := by
    unfold outerIter
    rw [h]
    simp only [hab, if_true]
  unfold attemptCore at h
  cases hd : drawParents O.draw fuelD s.ctrs.drawCtr with
  | none => rw [hd] at h; exact absurd h (by simp)
  | some tpl =>
      obtain ⟨t1, t2, dctr⟩ := tpl
      rw [hd] at h
      cases hz : remateWhileBothZero O.mateRes fuelZ s.ctrs.mateCtr with
      | none => rw [hz] at h; exact absurd h (by simp)
      | some q =>
          obtain ⟨r1, r2, mctr1⟩ := q
          rw [hz] at h
          dsimp only at h
          have hout := (Option.some.inj h).symm
          have hdc := drawParents_ctr O.draw fuelD s.ctrs.drawCtr t1 t2
            dctr hd
          refine ⟨?_, ?_, fun x h0 => badSolution_eq_claim _ _ x h0, ?_,
            by decide, by decide⟩
          · have := hab
            rw [hout] at this
            simp only [badSolution, decide_eq_true_eq] at this
            rw [hout]
            exact this
          · rw [hout]
          · refine ⟨_, hiter, rfl, rfl, rfl, rfl, rfl, ?_⟩
            have : out.drawCtr = dctr := by rw [hout]
            simp only [this]
            exact hdc

/-- Witness for the amended C1: running an attempt with parents of
fitness 10 and 8 and children evaluating to 4.9 — the spec's concrete
scenario — the pair is abandoned, and the 4.9 / 5.1 thresholds behave as
stated. -/
theorem claim1_amended_witness :
    badSolution (1/2) 10 (49/10) = true ∧
    badSolution (1/2) 10 (51/10) = false :=
  (claim1_amended wit1O wit1C 2 2 false (mateInit 4 ctrs0 [])
    { abandoned := true, c1 := ⟨2, 10, 49/10⟩, c2 := ⟨2, 11, 49/10⟩,
      parent1 := 0, parent2 := 1, drawCtr := 2, mateCtr := 2,
      evals := [10, 11, 10, 11], mates := [(0, 1), (0, 1)], minP := 10 }
    (by decide) (by decide)).2.2.2.2

/-! ## The cooperative cancellation check (claim C4) -/

/-- With `checkUserInterrupt == false` (the worker threads) one iteration
of the mating loop performs no interrupt check and never throws. -/
lemma outerIter_no_check (O : MateOracles) (C : MateCtrl)
    (fuelD fuelZ : ℕ) (s s' : MateState) (b : Bool)
    (h : outerIter O C fuelD fuelZ false s = some (s', b)) :
    s'.logs.checks = s.logs.checks ∧ b = false := by
  unfold outerIter at h
  cases ha : attemptCore O C fuelD fuelZ s.ctrs.drawCtr s.ctrs.mateCtr with
  | none => rw [ha] at h; exact absurd h (by simp)
  | some out =>
      rw [ha] at h
      dsimp only at h
      by_cases hb : out.abandoned = true
      · rw [if_pos hb] at h
        simp only [Option.some.injEq, Prod.mk.injEq] at h
        obtain ⟨h1, h2⟩ := h
        rw [← h1]
        exact ⟨rfl, h2.symm⟩
      · rw [if_neg hb] at h
        simp only [Option.some.injEq, Prod.mk.injEq] at h
        obtain ⟨h1, h2⟩ := h
        rw [← h1]
        exact ⟨rfl, h2.symm⟩

/-- Over the whole mating loop, `checkUserInterrupt == false` means no
check and no throw. -/
lemma mateLoop_no_check (O : MateOracles) (C : MateCtrl)
    (fuelD fuelZ : ℕ) :
    ∀ fuel s s' b, mateLoop O C fuelD fuelZ false fuel s = some (s', b) →
      s'.logs.checks = s.logs.checks ∧ b = false := by
  intro fuel
  induction fuel with
  | zero => intro s s' b h; simp [mateLoop] at h
  | succ n ih =>
      intro s s' b h
      unfold mateLoop at h
      by_cases hc : mateLoopCond s
      · rw [if_pos hc] at h
        cases ho : outerIter O C fuelD fuelZ false s with
        | none => rw [ho] at h; exact absurd h (by simp)
        | some p =>
            obtain ⟨s1, b1⟩ := p
            rw [ho] at h
            obtain ⟨hk, hb⟩ := outerIter_no_check O C fuelD fuelZ s s1 b1 ho
            rw [hb] at h
            simp only [Bool.false_eq_true, if_false] at h
            obtain ⟨hk2, hb2⟩ := ih s1 s' b h
            exact ⟨hk2.trans hk, hb2⟩
      · rw [if_neg hc] at h
        simp only [Option.some.injEq, Prod.mk.injEq] at h
        obtain ⟨h1, h2⟩ := h
        rw [← h1]
        exact ⟨rfl, h2.symm⟩

/-- A worker's `mate` call (`checkUserInterrupt = false`, line 553) never
checks for interruption and never throws. -/
lemma mateRun_no_check (O : MateOracles) (C : MateCtrl)
    (fuelD fuelZ n fuel : ℕ) (ctrs : MateCounters) (slots : List Chrom)
    (s : MateState) (b : Bool)
    (h : mateRun O C fuelD fuelZ false n fuel ctrs slots = some (s, b)) :
    s.logs.checks = 0 ∧ b = false := by
  have := mateLoop_no_check O C fuelD fuelZ fuel
    (mateInit n ctrs slots) s b h
  simpa [mateInit] using this

/-- C4, counterexample.  The interrupt check sits *inside* the mating-pair
loop (line 292), so the invoking thread executes it once per completed
pair, not once per generation: a benign generation share of 4 children
(two pairs) performs two checks. -/
theorem claim4_counterexample :
    (mateRun cex4O cex4C 2 2 true 4 10 ctrs0
        (List.replicate 4 ⟨1, 0, 0⟩)).map (fun p => p.1.logs.checks) =
      some 2 ∧ (2 : ℕ) ≠ 1 := by
  constructor
  · decide
  · decide

/-- C4 (amended): the cooperative cancellation check is executed only by
the invoking thread — a `mate` call with `checkUserInterrupt = false`, as
used by every worker thread, performs no check at all and can never throw
`InterruptException` — and on the invoking thread it runs once per
*completed (non-abandoned) iteration of the mating-pair loop*, not once
per generation: a completed iteration adds exactly one check, an
abandoned one adds none. -/
theorem claim4_amended :
    (∀ (O : MateOracles) (C : MateCtrl) (fuelD fuelZ n fuel : ℕ)
        (ctrs : MateCounters) (slots : List Chrom) (s : MateState)
        (b : Bool),
        mateRun O C fuelD fuelZ false n fuel ctrs slots = some (s, b) →
        s.logs.checks = 0 ∧ b = false) ∧
    (∀ (O : MateOracles) (C : MateCtrl) (fuelD fuelZ : ℕ)
        (s s' : MateState) (b : Bool) (out : AttemptOut),
        attemptCore O C fuelD fuelZ s.ctrs.drawCtr s.ctrs.mateCtr =
          some out →
        outerIter O C fuelD fuelZ true s = some (s', b) →
        s'.logs.checks =
          s.logs.checks + (if out.abandoned then 0 else 1)) := by
  refine ⟨fun O C fuelD fuelZ n fuel ctrs slots s b h =>
    mateRun_no_check O C fuelD fuelZ n fuel ctrs slots s b h, ?_⟩
  intro O C fuelD fuelZ s s' b out h1 h2
  unfold outerIter at h2
  rw [h1] at h2
  dsimp only at h2
  by_cases hb : out.abandoned = true
  · rw [if_pos hb] at h2
    simp only [Option.some.injEq, Prod.mk.injEq] at h2
    obtain ⟨h2a, h2b⟩ := h2
    rw [← h2a, hb]
    simp
  · rw [if_neg hb] at h2
    simp only [Option.some.injEq, Prod.mk.injEq] at h2
    obtain ⟨h2a, h2b⟩ := h2
    rw [← h2a]
    simp only [Bool.not_eq_true] at hb
    rw [hb]
    simp

/-- Witness for the amended C4: the empty worker range performs zero
checks, and one completed invoker iteration on a two-slot range performs
exactly one. -/
theorem claim4_amended_witness :
    ((mateInit 0 ctrs0 []).logs.checks = 0 ∧ false = false) ∧
    ({ a := 1, bbase := 1, slots := ([] : List Chrom),
       child1Tries := 0, child2Tries := 0,
       ctrs := { drawCtr := 2, mateCtr := 1, mutCtr := 2, dupCtr := 1,
                 resetCtr := 0, intCtr := 1 },
       logs := { evals := [10, 11], mates := [(0, 1)],
                 checks := 1 } } : MateState).logs.checks =
      (mateInit 2 ctrs0 []).logs.checks +
        (if (false : Bool) then 0 else 1) := by
  constructor
  · exact claim4_amended.1 cex4O cex4C 2 2 0 1 ctrs0 []
      (mateInit 0 ctrs0 []) false (by decide)
  · exact claim4_amended.2 cex4O cex4C 2 2 (mateInit 2 ctrs0 [])
      _ false
      { abandoned := false, c1 := ⟨1, 10, 5⟩, c2 := ⟨1, 11, 5⟩,
        parent1 := 0, parent2 := 1, drawCtr := 2, mateCtr := 1,
        evals := [10, 11], mates := [(0, 1)], minP := 1 }
      (by decide) (by decide)

/-! ## The improvement-retry phase (claims C5 and C6) -/

/-- The evaluation log of one proposal step: the proposal's tag exactly
when it has at least one variable, nothing otherwise. -/
lemma adoptProposal_log (f : ℕ → ℚ) (p c1 c2 : Chrom) :
    (adoptProposal f p c1 c2).2.2 =
      if 0 < p.varCount then [p.tag] else [] := by
  unfold adoptProposal
  dsimp only
  split_ifs <;> rfl

/-- The mate-call counter never decreases through the retry loop. -/
lemma retryLoop_mateCtr_mono (f : ℕ → ℚ) (mateRes : ℕ → Chrom × Chrom)
    (minP : ℚ) (maxTries : ℕ) :
    ∀ fuel tries mateCtr c1 c2,
      mateCtr ≤
        (retryLoop f mateRes minP maxTries fuel tries mateCtr c1 c2).2.2.1 := by
  intro fuel
  induction fuel with
  | zero => intro tries mateCtr c1 c2; exact le_refl _
  | succ n ih =>
      intro tries mateCtr c1 c2
      unfold retryLoop
      split
      · dsimp only
        exact le_trans (Nat.le_succ mateCtr) (ih (tries + 1) (mateCtr + 1)
          _ _)
      · exact le_refl _

/-- C5: the improvement-retry loop re-mates the same parents into the two
scratch proposal chromosomes exactly while child1's fitness is below the
better parent's fitness and the retry budget is not exhausted, and a
zero-variable proposal is skipped: never evaluated and never adopted.
Conjuncts: (i) a zero-variable proposal leaves the children untouched and
logs no evaluation; (ii) every tag the loop evaluates belongs to a
proposal with at least one variable produced by some re-mating call;
(iii) once child1 is at least as fit as the better parent the loop does
nothing; (iv) likewise once the budget is exhausted; (v) while both
conditions hold the loop consumes a re-mating call. -/
theorem claim5 :
    (∀ (f : ℕ → ℚ) (p c1 c2 : Chrom), p.varCount = 0 →
        adoptProposal f p c1 c2 = (c1, c2, [])) ∧
    (∀ (f : ℕ → ℚ) (mateRes : ℕ → Chrom × Chrom) (minP : ℚ)
        (maxTries fuel tries mateCtr : ℕ) (c1 c2 : Chrom) (t : ℕ),
        t ∈ (retryLoop f mateRes minP maxTries fuel tries mateCtr
              c1 c2).2.2.2 →
        ∃ j, mateCtr ≤ j ∧
          ((0 < (mateRes j).1.varCount ∧ t = (mateRes j).1.tag) ∨
           (0 < (mateRes j).2.varCount ∧ t = (mateRes j).2.tag))) ∧
    (∀ (f : ℕ → ℚ) (mateRes : ℕ → Chrom × Chrom) (minP : ℚ)
        (maxTries fuel tries mateCtr : ℕ) (c1 c2 : Chrom),
        minP ≤ c1.fitness →
        retryLoop f mateRes minP maxTries fuel tries mateCtr c1 c2 =
          (c1, c2, mateCtr, [])) ∧
    (∀ (f : ℕ → ℚ) (mateRes : ℕ → Chrom × Chrom) (minP : ℚ)
        (maxTries fuel tries mateCtr : ℕ) (c1 c2 : Chrom),
        maxTries ≤ tries + 1 →
        retryLoop f mateRes minP maxTries fuel tries mateCtr c1 c2 =
          (c1, c2, mateCtr, [])) ∧
    (∀ (f : ℕ → ℚ) (mateRes : ℕ → Chrom × Chrom) (minP : ℚ)
        (maxTries fuel tries mateCtr : ℕ) (c1 c2 : Chrom),
        c1.fitness < minP → tries + 1 < maxTries →
        mateCtr <
          (retryLoop f mateRes minP maxTries (fuel + 1) tries mateCtr
            c1 c2).2.2.1) := by
  refine ⟨?_, ?_, ?_, ?_, ?_⟩
  · intro f p c1 c2 h
    unfold adoptProposal
    rw [if_neg (by omega)]
  · intro f mateRes minP maxTries fuel
    induction fuel with
    | zero =>
        intro tries mateCtr c1 c2 t ht
        simp [retryLoop] at ht
    | succ n ih =>
        intro tries mateCtr c1 c2 t ht
        unfold retryLoop at ht
        by_cases hc : c1.fitness < minP ∧ tries + 1 < maxTries
        · rw [if_pos hc] at ht
          dsimp only at ht
          rw [List.mem_append] at ht
          rcases ht with ht | ht
          · unfold retryStep at ht
            dsimp only at ht
            rw [List.mem_append] at ht
            rcases ht with ht | ht
            · rw [adoptProposal_log] at ht
              by_cases hp : 0 < (mateRes mateCtr).1.varCount
              · rw [if_pos hp] at ht
                rw [List.mem_singleton] at ht
                exact ⟨mateCtr, le_refl _, Or.inl ⟨hp, ht⟩⟩
              · rw [if_neg hp] at ht
                exact absurd ht (List.not_mem_nil t)
            · rw [adoptProposal_log] at ht
              by_cases hp : 0 < (mateRes mateCtr).2.varCount
              · rw [if_pos hp] at ht
                rw [List.mem_singleton] at ht
                exact ⟨mateCtr, le_refl _, Or.inr ⟨hp, ht⟩⟩
              · rw [if_neg hp] at ht
                exact absurd ht (List.not_mem_nil t)
          · obtain ⟨j, hj, hcase⟩ := ih (tries + 1) (mateCtr + 1) _ _ t ht
            exact ⟨j, by omega, hcase⟩
        · rw [if_neg hc] at ht
          simp at ht
  · intro f mateRes minP maxTries fuel tries mateCtr c1 c2 h
    cases fuel with
    | zero => rfl
    | succ n =>
        unfold retryLoop
        rw [if_neg (fun hc => absurd hc.1 (not_lt.mpr h))]
  · intro f mateRes minP maxTries fuel tries mateCtr c1 c2 h
    cases fuel with
    | zero => rfl
    | succ n =>
        unfold retryLoop
        rw [if_neg (fun hc => absurd hc.2 (by omega))]
  · intro f mateRes minP maxTries fuel tries mateCtr c1 c2 h1 h2
    unfold retryLoop
    rw [if_pos ⟨h1, h2⟩]
    dsimp only
    exact lt_of_lt_of_le (Nat.lt_succ_self mateCtr)
      (retryLoop_mateCtr_mono f mateRes minP maxTries fuel (tries + 1)
        (mateCtr + 1) _ _)

/-- Witness for C5: each conjunct applied at a concrete small instance. -/
theorem claim5_witness :
    adoptProposal wit5f ⟨0, 3, 0⟩ ⟨1, 1, 2⟩ ⟨1, 2, 1⟩ =
      (⟨1, 1, 2⟩, ⟨1, 2, 1⟩, []) ∧
    (∃ j, 0 ≤ j ∧
      ((0 < (wit5m j).1.varCount ∧ 0 = (wit5m j).1.tag) ∨
       (0 < (wit5m j).2.varCount ∧ 0 = (wit5m j).2.tag))) ∧
    retryLoop wit5f wit5m 1 2 2 0 0 ⟨1, 1, 7⟩ ⟨1, 2, 6⟩ =
      (⟨1, 1, 7⟩, ⟨1, 2, 6⟩, 0, []) ∧
    retryLoop wit5f wit5m 10 1 2 0 0 ⟨1, 1, 1⟩ ⟨1, 2, 1⟩ =
      (⟨1, 1, 1⟩, ⟨1, 2, 1⟩, 0, []) ∧
    0 < (retryLoop wit5f wit5m 10 2 2 0 0 ⟨1, 1, 1⟩ ⟨1, 2, 1⟩).2.2.1 :=
  ⟨claim5.1 wit5f ⟨0, 3, 0⟩ ⟨1, 1, 2⟩ ⟨1, 2, 1⟩ rfl,
   claim5.2.1 wit5f wit5m 10 2 2 0 0 ⟨1, 1, 1⟩ ⟨1, 2, 1⟩ 0 (by decide),
   claim5.2.2.1 wit5f wit5m 1 2 2 0 0 ⟨1, 1, 7⟩ ⟨1, 2, 6⟩ (by decide),
   claim5.2.2.2.1 wit5f wit5m 10 1 2 0 0 ⟨1, 1, 1⟩ ⟨1, 2, 1⟩ (by decide),
   claim5.2.2.2.2 wit5f wit5m 10 2 1 0 0 ⟨1, 1, 1⟩ ⟨1, 2, 1⟩ (by decide)
     (by decide)⟩

/-- Ordering invariant of one proposal step: if the current children are
ordered (`child2` no fitter than `child1`), they still are afterwards. -/
lemma adoptProposal_fit (f : ℕ → ℚ) (p c1 c2 : Chrom)
    (h : c2.fitness ≤ c1.fitness) :
    (adoptProposal f p c1 c2).2.1.fitness ≤
      (adoptProposal f p c1 c2).1.fitness := by
  unfold adoptProposal
  dsimp only
  split_ifs with h1 h2 h3
  · dsimp only
    exact le_of_lt h3
  · dsimp only
    exact not_lt.mp h3
  · exact h
  · exact h

/-- C6: every adoption or promotion in the retry phase uses strict
greater-than — a proposal whose fitness merely equals the current
`child2`'s changes nothing, and one whose fitness is at most `child1`'s
is never promoted over `child1` — and the ordering `child2.fitness ≤
child1.fitness` is established by the initial evaluation step and
preserved by every retry iteration and by the whole retry loop. -/
theorem claim6 :
    (∀ (f : ℕ → ℚ) (p c1 c2 : Chrom), f p.tag = c2.fitness →
        (adoptProposal f p c1 c2).1 = c1 ∧
        (adoptProposal f p c1 c2).2.1 = c2) ∧
    (∀ (f : ℕ → ℚ) (p c1 c2 : Chrom), f p.tag ≤ c1.fitness →
        (adoptProposal f p c1 c2).1 = c1) ∧
    (∀ (f : ℕ → ℚ) (c1 c2 : Chrom),
        (evalAndOrder f c1 c2).2.1.fitness ≤
          (evalAndOrder f c1 c2).1.fitness) ∧
    (∀ (f : ℕ → ℚ) (p1 p2 c1 c2 : Chrom), c2.fitness ≤ c1.fitness →
        (retryStep f p1 p2 c1 c2).2.1.fitness ≤
          (retryStep f p1 p2 c1 c2).1.fitness) ∧
    (∀ (f : ℕ → ℚ) (mateRes : ℕ → Chrom × Chrom) (minP : ℚ)
        (maxTries fuel tries mateCtr : ℕ) (c1 c2 : Chrom),
        c2.fitness ≤ c1.fitness →
        (retryLoop f mateRes minP maxTries fuel tries mateCtr
            c1 c2).2.1.fitness ≤
          (retryLoop f mateRes minP maxTries fuel tries mateCtr
            c1 c2).1.fitness) := by
  have hstep : ∀ (f : ℕ → ℚ) (p1 p2 c1 c2 : Chrom),
      c2.fitness ≤ c1.fitness →
      (retryStep f p1 p2 c1 c2).2.1.fitness ≤
        (retryStep f p1 p2 c1 c2).1.fitness := by
    intro f p1 p2 c1 c2 h
    unfold retryStep
    dsimp only
    exact adoptProposal_fit f p2 _ _ (adoptProposal_fit f p1 c1 c2 h)
  refine ⟨?_, ?_, ?_, hstep, ?_⟩
  · intro f p c1 c2 h
    unfold adoptProposal
    dsimp only
    by_cases h1 : 0 < p.varCount
    · rw [if_pos h1, if_neg (by rw [h]; exact lt_irrefl _)]
      exact ⟨rfl, rfl⟩
    · rw [if_neg h1]
      exact ⟨rfl, rfl⟩
  · intro f p c1 c2 h
    unfold adoptProposal
    dsimp only
    by_cases h1 : 0 < p.varCount
    · rw [if_pos h1]
      by_cases h2 : f p.tag > c2.fitness
      · rw [if_pos h2, if_neg (not_lt.mpr h)]
      · rw [if_neg h2]
    · rw [if_neg h1]
  · intro f c1 c2
    unfold evalAndOrder
    dsimp only
    by_cases h : (evalChrom f c1).fitness < (evalChrom f c2).fitness
    · rw [if_pos h]
      exact le_of_lt h
    · rw [if_neg h]
      exact not_lt.mp h
  · intro f mateRes minP maxTries fuel
    induction fuel with
    | zero => intro tries mateCtr c1 c2 h; exact h
    | succ n ih =>
        intro tries mateCtr c1 c2 h
        unfold retryLoop
        split
        · dsimp only
          exact ih (tries + 1) (mateCtr + 1) _ _
            (hstep f (mateRes mateCtr).1 (mateRes mateCtr).2 c1 c2 h)
        · exact h

/-- Witness for C6: each hypothesis-bearing conjunct applied at a
concrete small instance. -/
theorem claim6_witness :
    ((adoptProposal wit5f ⟨1, 0, 0⟩ ⟨1, 9, 7⟩ ⟨1, 8, 5⟩).1 = ⟨1, 9, 7⟩ ∧
     (adoptProposal wit5f ⟨1, 0, 0⟩ ⟨1, 9, 7⟩ ⟨1, 8, 5⟩).2.1 = ⟨1, 8, 5⟩) ∧
    (adoptProposal wit5f ⟨1, 0, 0⟩ ⟨1, 9, 6⟩ ⟨1, 8, 1⟩).1 = ⟨1, 9, 6⟩ ∧
    (retryStep wit5f ⟨1, 0, 0⟩ ⟨1, 1, 0⟩ ⟨1, 9, 3⟩ ⟨1, 8, 2⟩).2.1.fitness ≤
      (retryStep wit5f ⟨1, 0, 0⟩ ⟨1, 1, 0⟩ ⟨1, 9, 3⟩ ⟨1, 8, 2⟩).1.fitness ∧
    (retryLoop wit5f wit5m 10 3 3 0 0 ⟨1, 9, 3⟩ ⟨1, 8, 2⟩).2.1.fitness ≤
      (retryLoop wit5f wit5m 10 3 3 0 0 ⟨1, 9, 3⟩ ⟨1, 8, 2⟩).1.fitness :=
  ⟨claim6.1 wit5f ⟨1, 0, 0⟩ ⟨1, 9, 7⟩ ⟨1, 8, 5⟩ (by decide),
   claim6.2.1 wit5f ⟨1, 0, 0⟩ ⟨1, 9, 6⟩ ⟨1, 8, 1⟩ (by decide),
   claim6.2.2.2.1 wit5f ⟨1, 0, 0⟩ ⟨1, 1, 0⟩ ⟨1, 9, 3⟩ ⟨1, 8, 2⟩
     (by decide),
   claim6.2.2.2.2 wit5f wit5m 10 3 3 0 0 ⟨1, 9, 3⟩ ⟨1, 8, 2⟩ (by decide)⟩

/-! ## Zero-variable children (claim C7) -/

/-- C7: when both freshly mated children have zero variables the same two
parents are re-mated — the loop's result is the first re-mating outcome
that is not doubly empty, all earlier outcomes being doubly empty, and
every `mateWith` call of the whole pair attempt carries the originally
drawn parent pair (parents are not redrawn) — and a single zero-variable
child is replaced by a copy of the other child. -/
theorem claim7 :
    (∀ (mateRes : ℕ → Chrom × Chrom) (fuel ctr : ℕ) (r1 r2 : Chrom)
        (ctr' : ℕ),
        remateWhileBothZero mateRes fuel ctr = some (r1, r2, ctr') →
        ∃ k, ctr' = ctr + k + 1 ∧ (mateRes (ctr + k)).1 = r1 ∧
          (mateRes (ctr + k)).2 = r2 ∧
          ¬(r1.varCount = 0 ∧ r2.varCount = 0) ∧
          (∀ j, j < k → (mateRes (ctr + j)).1.varCount = 0 ∧
            (mateRes (ctr + j)).2.varCount = 0)) ∧
    (∀ c1 c2 : Chrom, c1.varCount = 0 → ¬c2.varCount = 0 →
        fixZeroChild c1 c2 = (c2, c2)) ∧
    (∀ c1 c2 : Chrom, ¬c1.varCount = 0 → c2.varCount = 0 →
        fixZeroChild c1 c2 = (c1, c1)) ∧
    (∀ (O : MateOracles) (C : MateCtrl) (fuelD fuelZ dc mc : ℕ)
        (out : AttemptOut), attemptCore O C fuelD fuelZ dc mc = some out →
        ∀ pq ∈ out.mates, pq = (out.parent1, out.parent2)) := by
  refine ⟨?_, ?_, ?_, ?_⟩
  · intro mateRes fuel
    induction fuel with
    | zero => intro ctr r1 r2 ctr' h; simp [remateWhileBothZero] at h
    | succ n ih =>
        intro ctr r1 r2 ctr' h
        unfold remateWhileBothZero at h
        dsimp only at h
        by_cases hc : (mateRes ctr).1.varCount = 0 ∧
            (mateRes ctr).2.varCount = 0
        · rw [if_pos hc] at h
          obtain ⟨k, hk1, hk2, hk3, hk4, hk5⟩ := ih (ctr + 1) r1 r2 ctr' h
          refine ⟨k + 1, by omega, ?_, ?_, hk4, ?_⟩
          · rw [show ctr + (k + 1) = ctr + 1 + k by omega]
            exact hk2
          · rw [show ctr + (k + 1) = ctr + 1 + k by omega]
            exact hk3
          · intro j hj
            cases j with
            | zero => simpa using hc
            | succ m =>
                rw [show ctr + (m + 1) = ctr + 1 + m by omega]
                exact hk5 m (by omega)
        · rw [if_neg hc] at h
          simp only [Option.some.injEq, Prod.mk.injEq] at h
          obtain ⟨h1, h2, h3⟩ := h
          refine ⟨0, by omega, h1, h2, ?_, fun j hj => absurd hj (by omega)⟩
          rw [← h1, ← h2]
          exact hc
  · intro c1 c2 h1 h2
    unfold fixZeroChild
    rw [if_pos h1]
  · intro c1 c2 h1 h2
    unfold fixZeroChild
    rw [if_neg h1, if_pos h2]
  · intro O C fuelD fuelZ dc mc out h pq hpq
    unfold attemptCore at h
    cases hd : drawParents O.draw fuelD dc with
    | none => rw [hd] at h; exact absurd h (by simp)
    | some tpl =>
        obtain ⟨t1, t2, dctr⟩ := tpl
        rw [hd] at h
        cases hz : remateWhileBothZero O.mateRes fuelZ mc with
        | none => rw [hz] at h; exact absurd h (by simp)
        | some q =>
            obtain ⟨r1, r2, mctr1⟩ := q
            rw [hz] at h
            dsimp only at h
            have hout := (Option.some.inj h).symm
            rw [hout] at hpq
            have := List.eq_of_mem_replicate hpq
            rw [hout]
            exact this

/-- Witness for C7: each conjunct applied at a concrete small instance. -/
theorem claim7_witness :
    (∃ k, 2 = 0 + k + 1 ∧ (wit7m (0 + k)).1 = ⟨1, 2, 0⟩ ∧
      (wit7m (0 + k)).2 = ⟨1, 3, 0⟩ ∧
      ¬((⟨1, 2, 0⟩ : Chrom).varCount = 0 ∧
        (⟨1, 3, 0⟩ : Chrom).varCount = 0) ∧
      (∀ j, j < k → (wit7m (0 + j)).1.varCount = 0 ∧
        (wit7m (0 + j)).2.varCount = 0)) ∧
    fixZeroChild ⟨0, 1, 0⟩ ⟨2, 5, 0⟩ = (⟨2, 5, 0⟩, ⟨2, 5, 0⟩) ∧
    fixZeroChild ⟨2, 5, 0⟩ ⟨0, 1, 0⟩ = (⟨2, 5, 0⟩, ⟨2, 5, 0⟩) ∧
    ((0 : ℕ), (1 : ℕ)) =
      (({ abandoned := false, c1 := ⟨1, 10, 5⟩, c2 := ⟨1, 11, 5⟩,
          parent1 := 0, parent2 := 1, drawCtr := 2, mateCtr := 1,
          evals := [10, 11], mates := [(0, 1)],
          minP := 1 } : AttemptOut).parent1,
       ({ abandoned := false, c1 := ⟨1, 10, 5⟩, c2 := ⟨1, 11, 5⟩,
          parent1 := 0, parent2 := 1, drawCtr := 2, mateCtr := 1,
          evals := [10, 11], mates := [(0, 1)],
          minP := 1 } : AttemptOut).parent2) :=
  ⟨claim7.1 wit7m 3 0 ⟨1, 2, 0⟩ ⟨1, 3, 0⟩ 2 (by decide),
   claim7.2.1 ⟨0, 1, 0⟩ ⟨2, 5, 0⟩ rfl (by decide),
   claim7.2.2.1 ⟨2, 5, 0⟩ ⟨0, 1, 0⟩ (by decide) rfl,
   claim7.2.2.2 wit7O wit7C 2 2 0 0
     { abandoned := false, c1 := ⟨1, 10, 5⟩, c2 := ⟨1, 11, 5⟩,
       parent1 := 0, parent2 := 1, drawCtr := 2, mateCtr := 1,
       evals := [10, 11], mates := [(0, 1)], minP := 1 }
     (by decide) (0, 1) (by decide)⟩

/-! ## Identity-only distinctness of the parents (claim C10) -/

/-- C10: the distinct-parents guarantee is by object (slot) identity only.
The redraw loop retries exactly while the draw returns the very same slot
as the first parent, so its result is always a *different slot*; whether
it is accepted depends only on the slot index, never on the stored bits —
a draw stream returning two different slots is accepted immediately, for
any generation contents — and concretely, with every slot of the current
generation holding the same chromosome value, slots 0 and 1 are selected
together as the two parents of one pair. -/
theorem claim10 :
    (∀ (draw : ℕ → ℕ) (t1 fuel ctr t2 ctr' : ℕ),
        drawSecond draw t1 fuel ctr = some (t2, ctr') → t2 ≠ t1) ∧
    (∀ (draw : ℕ → ℕ) (fuel ctr : ℕ), draw (ctr + 1) ≠ draw ctr →
        drawParents draw (fuel + 1) ctr =
          some (draw ctr, draw (ctr + 1), ctr + 2)) ∧
    (cex10O.gen 0 = cex10O.gen 1 ∧
      (attemptCore cex10O cex10C 2 2 0 0).map
        (fun o => (o.parent1, o.parent2)) = some (0, 1)) := by
  refine ⟨?_, ?_, by decide⟩
  · intro draw t1 fuel ctr t2 ctr' h
    exact drawSecond_ne draw t1 fuel ctr t2 ctr' h
  · intro draw fuel ctr h
    unfold drawParents drawSecond
    dsimp only
    rw [if_neg h]

/-- Witness for C10: the slot-distinctness conjuncts applied at the
identity draw stream. -/
theorem claim10_witness :
    (0 : ℕ) ≠ 5 ∧
    drawParents (fun k => k) 2 0 = some (0, 1, 2) :=
  ⟨claim10.1 (fun k => k) 5 3 0 0 1 (by decide),
   claim10.2.1 (fun k => k) 1 0 (by decide)⟩

/-! ## Unused bits of the first chromosome part (claim C3) -/

/-- Every bit the packing places lies at a position `≥ k`, so the `k`
least significant bits of the first part are zero for every selection. -/
lemma two_pow_dvd_firstPart : ∀ (sel : List Bool) (k : ℕ),
    2 ^ k ∣ firstPart k sel := by
  intro sel
  induction sel with
  | nil => intro k; exact dvd_zero _
  | cons b rest ih =>
      intro k
      unfold firstPart
      refine dvd_add ?_
        (dvd_trans (pow_dvd_pow 2 (Nat.le_succ k)) (ih (k + 1)))
      split
      · exact dvd_refl _
      · exact dvd_zero _

/-- C3, counterexample.  Chromosome.h line 78 places the unused bits at
the *least significant* end of the first part, not at the high-order end:
with a 64-bit part, 4 candidate variables and hence 60 unused bits, a
chromosome with its first variable selected has first part `2^60` — its
60 low bits are 0 as the source requires, but the value is not below
`2^(64-60)`, so the high-order 60 bits are not zero as the claim
demands. -/
theorem claim3_counterexample :
    lowBitsUnused 60 (firstPart 60 [true, false, false, false]) ∧
    ¬ highBitsUnused 64 60 (firstPart 60 [true, false, false, false]) := by
  constructor
  · exact two_pow_dvd_firstPart [true, false, false, false] 60
  · have : firstPart 60 [true, false, false, false] = 2 ^ 60 := by
      simp [firstPart]
    unfold highBitsUnused
    rw [this]
    norm_num

/-- C3 (amended): the unused bits of the first word are its `k` *least
significant* bits (`k = unusedBits`, Chromosome.h line 78), and they stay
at the defined value 0: any packed selection — in particular any per-bit
crossover of two selections — leaves them zero. -/
theorem claim3_amended (k : ℕ) (sel mask p q : List Bool) :
    lowBitsUnused k (firstPart k sel) ∧
    lowBitsUnused k (firstPart k (crossSel mask p q)) :=
  ⟨two_pow_dvd_firstPart sel k, two_pow_dvd_firstPart (crossSel mask p q) k⟩

/-! ## Cancellation and shutdown in `run` (claim C8) -/

/-- Every worker index below the pool size is joined by the join loop. -/
lemma joinSeq_mem (i : ℕ) :
    ∀ workers, i < workers → RunEv.joinThread i ∈ joinSeq workers := by
  intro workers
  induction workers with
  | zero => intro h; omega
  | succ n ih =>
      intro h
      unfold joinSeq
      by_cases hi : i = n
      · rw [hi]
        exact List.mem_cons_self _ _
      · exact List.mem_cons_of_mem _ (ih (by omega))

/-- C8: if the cooperative cancellation is raised during the run, the run
routine still broadcasts the terminate signal and joins every worker
before re-throwing the interruption: the trace always ends with the
terminate broadcast followed by the full join sequence (the re-throw
happens only afterwards, through the returned flag), every worker index
is joined, and worker threads never observe the cancellation directly —
their `mate` calls run with `checkUserInterrupt = false`, perform no
check and never throw. -/
theorem claim8 (intAt : ℕ → Bool) (numGens workers : ℕ)
    (h : (runModel intAt numGens workers).2 = true) :
    (∃ pre, (runModel intAt numGens workers).1 =
      pre ++ RunEv.broadcastTerminate :: joinSeq workers) ∧
    (∀ i, i < workers →
      RunEv.joinThread i ∈ (runModel intAt numGens workers).1) ∧
    (∀ (O : MateOracles) (C : MateCtrl) (fuelD fuelZ n fuel : ℕ)
        (ctrs : MateCounters) (slots : List Chrom) (s : MateState)
        (b : Bool),
        mateRun O C fuelD fuelZ false n fuel ctrs slots = some (s, b) →
        s.logs.checks = 0 ∧ b = false) := by
  refine ⟨⟨(runGens intAt numGens).1, rfl⟩, ?_,
    fun O C fuelD fuelZ n fuel ctrs slots s b hm =>
      mateRun_no_check O C fuelD fuelZ n fuel ctrs slots s b hm⟩
  intro i hi
  unfold runModel
  dsimp only
  exact List.mem_append_right _
    (List.mem_cons_of_mem _ (joinSeq_mem i workers hi))

/-- Witness for C8 at an interruption in the very first generation with
two workers. -/
theorem claim8_witness :
    (∃ pre, (runModel (fun _ => true) 1 2).1 =
      pre ++ RunEv.broadcastTerminate :: joinSeq 2) ∧
    (∀ i, i < 2 →
      RunEv.joinThread i ∈ (runModel (fun _ => true) 1 2).1) :=
  ⟨(claim8 (fun _ => true) 1 2 (by decide)).1,
   (claim8 (fun _ => true) 1 2 (by decide)).2.1⟩

/-! ## The spawn partition (claim C9) -/

/-- `sizesSum` of the empty list. -/
lemma sizesSum_nil : sizesSum [] = 0 := rfl

/-- `sizesSum` of a cons. -/
lemma sizesSum_cons (z : ℕ × ℕ) (l : List (ℕ × ℕ)) :
    sizesSum (z :: l) = z.2 + sizesSum l := by
  simp [sizesSum]

/-- `sizesSum` of an append. -/
lemma sizesSum_append (l₁ l₂ : List (ℕ × ℕ)) :
    sizesSum (l₁ ++ l₂) = sizesSum l₁ + sizesSum l₂ := by
  simp [sizesSum]

/-- Splitting `consecutiveFrom` over an append. -/
lemma consecutiveFrom_append (xs : List (ℕ × ℕ)) :
    ∀ (off : ℕ) (ys : List (ℕ × ℕ)),
      consecutiveFrom off (xs ++ ys) ↔
        consecutiveFrom off xs ∧
          consecutiveFrom (off + sizesSum xs) ys := by
  induction xs with
  | nil =>
      intro off ys
      rw [sizesSum_nil]
      simp [consecutiveFrom]
  | cons r rs ih =>
      intro off ys
      have hstep : consecutiveFrom off ((r :: rs) ++ ys) ↔
          (r.1 = off ∧ consecutiveFrom (off + r.2) (rs ++ ys)) :=
        Iff.rfl
      rw [hstep, ih (off + r.2) ys,
        show consecutiveFrom off (r :: rs) ↔
          (r.1 = off ∧ consecutiveFrom (off + r.2) rs) from Iff.rfl,
        sizesSum_cons,
        show off + (r.2 + sizesSum rs) = off + r.2 + sizesSum rs by omega]
      tauto

/-- Every range of a consecutive list lies within the covered window. -/
lemma consecutive_bounds (rs : List (ℕ × ℕ)) :
    ∀ off, consecutiveFrom off rs → ∀ r ∈ rs,
      off ≤ r.1 ∧ r.1 + r.2 ≤ off + sizesSum rs := by
  induction rs with
  | nil => intro off h r hr; cases hr
  | cons x xs ih =>
      intro off h r hr
      obtain ⟨h1, h2⟩ := h
      have hsz : sizesSum (x :: xs) = x.2 + sizesSum xs :=
        sizesSum_cons x xs
      rcases List.mem_cons.mp hr with rfl | hr
      · constructor
        · omega
        · omega
      · obtain ⟨ha, hb⟩ := ih (off + x.2) h2 r hr
        constructor
        · omega
        · omega

/-- Consecutive ranges are pairwise disjoint. -/
lemma consecutive_pairwise (rs : List (ℕ × ℕ)) :
    ∀ off, consecutiveFrom off rs → rs.Pairwise rangesDisjoint := by
  induction rs with
  | nil => intro off h; exact List.Pairwise.nil
  | cons x xs ih =>
      intro off h
      obtain ⟨h1, h2⟩ := h
      refine List.Pairwise.cons ?_ (ih (off + x.2) h2)
      intro r hr
      obtain ⟨ha, hb⟩ := consecutive_bounds xs (off + x.2) h2 r hr
      intro y hy
      simp only [inRange] at hy
      omega

/-- A consecutive list covers exactly its window. -/
lemma consecutive_covers (rs : List (ℕ × ℕ)) :
    ∀ off, consecutiveFrom off rs → ∀ x,
      covers rs x ↔ (off ≤ x ∧ x < off + sizesSum rs) := by
  induction rs with
  | nil =>
      intro off h x
      unfold covers
      constructor
      · rintro ⟨r, hr, _⟩
        cases hr
      · rintro ⟨h1, h2⟩
        have := sizesSum_nil
        omega
  | cons y ys ih =>
      intro off h x
      obtain ⟨h1, h2⟩ := h
      have hih := ih (off + y.2) h2 x
      have hsz : sizesSum (y :: ys) = y.2 + sizesSum ys :=
        sizesSum_cons y ys
      constructor
      · rintro ⟨r, hr, hx⟩
        simp only [inRange] at hx
        rcases List.mem_cons.mp hr with rfl | hr
        · omega
        · have := hih.mp ⟨r, hr, hx⟩
          omega
      · intro hx
        by_cases hcase : x < off + y.2
        · refine ⟨y, List.mem_cons_self _ _, ?_⟩
          simp only [inRange]
          omega
        · obtain ⟨r, hr, hxr⟩ := hih.mpr (by omega)
          exact ⟨r, List.mem_cons_of_mem _ hr, hxr⟩

/-- Structure of the spawn loop: the spawned ranges are consecutive from
the initial offset, the final offset sits right after them, and the
invoking thread's final share absorbs exactly the failed workers'
shares. -/
lemma spawnLoop_spec (perThread : ℕ) :
    ∀ (pattern : List Bool) (rem off mainC : ℕ),
      consecutiveFrom off (spawnLoop perThread pattern rem off mainC).1 ∧
      (spawnLoop perThread pattern rem off mainC).2.1 =
        off + sizesSum (spawnLoop perThread pattern rem off mainC).1 ∧
      (spawnLoop perThread pattern rem off mainC).2.2 +
          sizesSum (spawnLoop perThread pattern rem off mainC).1 =
        mainC + totalShares perThread pattern rem ∧
      (spawnLoop perThread pattern rem off mainC).2.2 =
        mainC + failedShares perThread pattern rem := by
  intro pattern
  induction pattern with
  | nil =>
      intro rem off mainC
      refine ⟨trivial, ?_, ?_, ?_⟩ <;>
        simp [spawnLoop, sizesSum, totalShares, failedShares]
  | cons ok rest ih =>
      intro rem off mainC
      unfold spawnLoop totalShares failedShares
      dsimp only
      cases ok with
      | true =>
          simp only [if_true]
          obtain ⟨ha, hb, hc, hd⟩ := ih (rem - 1)
            (off + (if 0 < rem then perThread + 1 else perThread)) mainC
          refine ⟨⟨rfl, ha⟩, ?_, ?_, ?_⟩
          · rw [sizesSum_cons]
            omega
          · rw [sizesSum_cons]
            omega
          · rw [hd]
            omega
      | false =>
          simp only [Bool.false_eq_true, if_false]
          obtain ⟨ha, hb, hc, hd⟩ := ih (rem - 1) off
            (mainC + (if 0 < rem then perThread + 1 else perThread))
          exact ⟨ha, hb, by omega, by omega⟩

/-- The total of the handed-out shares. -/
lemma totalShares_eq (perThread : ℕ) :
    ∀ (pattern : List Bool) (rem : ℕ),
      totalShares perThread pattern rem =
        perThread * pattern.length + min rem pattern.length := by
  intro pattern
  induction pattern with
  | nil => intro rem; simp [totalShares]
  | cons ok rest ih =>
      intro rem
      unfold totalShares
      rw [ih (rem - 1)]
      simp only [List.length_cons]
      have hmul : perThread * (rest.length + 1) =
          perThread * rest.length + perThread := by ring
      by_cases hrem : 0 < rem
      · rw [if_pos hrem]
        omega
      · rw [if_neg hrem]
        omega

/-- C9: for every pattern of thread-creation outcomes, the write
partition of `nextGeneration` — the spawned workers' ranges followed by
the invoking thread's range — is pairwise disjoint and covers exactly the
`populationSize` slots; each failed worker's share is folded into the
invoking thread's share, and the warning fires exactly when some worker
failed to spawn (the run continues either way: the partition is total). -/
theorem claim9 (pop T : ℕ) (pattern : List Bool) (hT : 2 ≤ T)
    (hlen : pattern.length = T - 1) :
    List.Pairwise rangesDisjoint (spawnPlan pop T pattern) ∧
    (∀ x, covers (spawnPlan pop T pattern) x ↔ x < pop) ∧
    (spawnLoop (pop / T) pattern (pop % T) 0 (pop / T)).2.2 =
      pop / T + failedShares (pop / T) pattern (pop % T) ∧
    (spawnWarning pattern = true ↔ ∃ b ∈ pattern, b = false) := by
  obtain ⟨hcons, hoff, htot, hfail⟩ :=
    spawnLoop_spec (pop / T) pattern (pop % T) 0 (pop / T)
  have hplan : consecutiveFrom 0 (spawnPlan pop T pattern) := by
    unfold spawnPlan
    dsimp only
    rw [consecutiveFrom_append]
    exact ⟨hcons, hoff, trivial⟩
  have hsize : sizesSum (spawnPlan pop T pattern) = pop := by
    unfold spawnPlan
    dsimp only
    rw [sizesSum_append, sizesSum_cons, sizesSum_nil]
    have hts := totalShares_eq (pop / T) pattern (pop % T)
    have hmod : pop % T < T := Nat.mod_lt _ (by omega)
    have hmin : min (pop % T) pattern.length = pop % T := by
      rw [hlen]; omega
    have hdm : T * (pop / T) + pop % T = pop := Nat.div_add_mod pop T
    have hlen1 : pattern.length + 1 = T := by omega
    have hmul : pop / T * T = pop / T * pattern.length + pop / T := by
      rw [← hlen1]; ring
    have hcomm : pop / T * T = T * (pop / T) := Nat.mul_comm _ _
    omega
  refine ⟨consecutive_pairwise _ 0 hplan, ?_, hfail, ?_⟩
  · intro x
    rw [consecutive_covers _ 0 hplan x, hsize]
    omega
  · unfold spawnWarning
    rw [decide_eq_true_iff]
    constructor
    · intro hcount
      by_contra hall
      push_neg at hall
      have : pattern.count true = pattern.length := by
        rw [List.count_eq_length]
        intro b hb
        cases hbv : b with
        | false => exact absurd hbv (hall b hb)
        | true => rfl
      omega
    · rintro ⟨b, hb, rfl⟩
      have hle : pattern.count true ≤ pattern.length :=
        List.count_le_length _ _
      rcases Nat.eq_or_lt_of_le hle with heq | hlt
      · have := (List.count_eq_length.mp heq) false hb
        exact absurd this (by decide)
      · exact hlt

/-- Witness for C9 at `pop = 10`, `T = 3` and one failed worker. -/
theorem claim9_witness :
    List.Pairwise rangesDisjoint (spawnPlan 10 3 [true, false]) ∧
    (∀ x, covers (spawnPlan 10 3 [true, false]) x ↔ x < 10) ∧
    (spawnLoop (10 / 3) [true, false] (10 % 3) 0 (10 / 3)).2.2 =
      10 / 3 + failedShares (10 / 3) [true, false] (10 % 3) ∧
    (spawnWarning [true, false] = true ↔
      ∃ b ∈ [true, false], b = false) :=
  claim9 10 3 [true, false] (by decide) (by decide)

end Gaselect
